import Mathlib

/-!
Verification of the framed request/response transport implemented by
`RevitClientConnection` (length-prefixed TCP framing, response correlation
by request id, per-request timeout).

The receive-side framer (`processData`), the buffer reset (`resetBuffers`),
the response dispatch (`handleResponse`), the timeout closure registered by
`sendCommand`, the request-id generator (`generateRequestId`) and the
sender-side frame encoding are embedded as executable Lean functions over
byte lists (a byte is a `Nat` in `0..255`, the contents of a Node `Buffer`).
JSON values produced by the platform `JSON.parse` are modelled by the
inductive `JValue`; the parse function itself is a platform primitive and is
passed as an explicit parameter `parse : String → Option JValue` (`none`
models a thrown `SyntaxError`).
-/

/-- The maximum accepted message length, `10 * 1024 * 1024` in the source. -/
def MAX_MESSAGE_LENGTH : Nat := 10 * 1024 * 1024

/-- The framer's receive-buffer state: fields `lengthBuffer`, `messageBuffer`
and `expectedLength` of `RevitClientConnection`.  `expectedLength` is only
ever assigned a validated positive value before it is used, so it is stored
as a `Nat`. -/
structure Framer where
  lengthBuffer : List Nat
  messageBuffer : List Nat
  expectedLength : Option Nat
deriving DecidableEq, Repr

/-- The initial framer state (field initialisers), which is also the state
produced by `resetBuffers`. -/
def initialFramer : Framer := ⟨[], [], none⟩

/-- `Buffer.readInt32BE(0)` on a 4-byte buffer: signed big-endian 32-bit
decode.  Only ever applied to 4-byte lists. -/
def readInt32BE : List Nat → Int
  | [b0, b1, b2, b3] =>
    let u : Nat := b0 * 2 ^ 24 + b1 * 2 ^ 16 + b2 * 2 ^ 8 + b3
    if u < 2 ^ 31 then (u : Int) else (u : Int) - 2 ^ 32
  | _ => 0

/-- `Buffer.writeInt32BE(n, 0)` for a non-negative in-range value: the four
big-endian bytes of `n`. -/
def writeInt32BE (n : Nat) : List Nat :=
  [n / 2 ^ 24 % 256, n / 2 ^ 16 % 256, n / 2 ^ 8 % 256, n % 256]

/-- Result of the first stage (length-prefix accumulation) of one iteration
of the `processData` loop: either the defensive length check failed (the
source logs, calls `resetBuffers` and returns), or processing continues with
an updated state and the not-yet-consumed suffix of the chunk. -/
inductive Step1Result where
  | err
  | ok (st : Framer) (rem : List Nat)

/-- First stage of one `processData` loop iteration (source lines 46-71):
accumulate up to `4 - lengthBuffer.length` bytes of length, and on
completion decode and validate the expected length.  A no-op when the
expected length is already known. -/
def step1 (st : Framer) (rem : List Nat) : Step1Result :=
  match st.expectedLength with
  | some _ => .ok st rem
  | none =>
    let toCopy := min (4 - st.lengthBuffer.length) rem.length
    let lb := st.lengthBuffer ++ rem.take toCopy
    let rem1 := rem.drop toCopy
    if lb.length = 4 then
      let L := readInt32BE lb
      if L ≤ 0 ∨ (MAX_MESSAGE_LENGTH : Int) < L then .err
      else .ok ⟨[], st.messageBuffer, some L.toNat⟩ rem1
    else .ok ⟨lb, st.messageBuffer, none⟩ rem1

/-- Second stage of one `processData` loop iteration (source lines 74-94):
accumulate up to `expectedLength - messageBuffer.length` bytes of payload;
on completion the payload is emitted and the buffers reset.  A no-op when no
expected length is known.  Returns the new state, the unconsumed suffix, and
the payload emitted by this stage, if any. -/
def step2 (st : Framer) (rem : List Nat) : Framer × List Nat × Option (List Nat) :=
  match st.expectedLength with
  | none => (st, rem, none)
  | some L =>
    let toCopy := min (L - st.messageBuffer.length) rem.length
    let mb := st.messageBuffer ++ rem.take toCopy
    let rem1 := rem.drop toCopy
    if mb.length = L then (initialFramer, rem1, some mb)
    else (⟨st.lengthBuffer, mb, some L⟩, rem1, none)

/-- The `while (offset < data.length)` loop of `processData`.  The source
loop consumes at least one byte per iteration from every reachable state, so
fuel `data.length` suffices; `none` models the divergence the source would
exhibit from a (unreachable) stuck state.  The `Bool` records whether the
defensive length check fired (the `console.error` / `resetBuffers` /
`return` path, which also discards the rest of the chunk). -/
def processLoop : Nat → Framer → List Nat → Option (Framer × List (List Nat) × Bool)
  | _, st, [] => some (st, ([], false))
  | 0, _, _ :: _ => none
  | fuel + 1, st, c :: rest =>
    match step1 st (c :: rest) with
    | .err => some (initialFramer, ([], true))
    | .ok st1 rem1 =>
      match step2 st1 rem1 with
      | (st2, rem2, out) =>
        match processLoop fuel st2 rem2 with
        | none => none
        | some (stf, (outs, e)) =>
          some (stf, ((out.elim outs (· :: outs)), e))

/-- `processData(data)`: run the loop on one received chunk.  Emitted
payloads are returned in emission order (each is handed to `handleResponse`
as its UTF-8 decoding in the source). -/
def processData (st : Framer) (data : List Nat) : Option (Framer × List (List Nat) × Bool) :=
  processLoop data.length st data

/-- Feeding a sequence of chunks: one socket `data` event per list element.
Payloads are concatenated in arrival order; the flag records whether any
call raised the framing error. -/
def feedAll (st : Framer) : List (List Nat) → Option (Framer × List (List Nat) × Bool)
  | [] => some (st, ([], false))
  | c :: cs =>
    match processData st c with
    | none => none
    | some (st1, (o1, e1)) =>
      match feedAll st1 cs with
      | none => none
      | some (st2, (o2, e2)) => some (st2, (o1 ++ o2, e1 || e2))

/-- Sender-side frame encoding (source lines 178-185): a 4-byte big-endian
length followed by the payload bytes. -/
def encodeFrame (payload : List Nat) : List Nat :=
  writeInt32BE payload.length ++ payload

/-- UTF-8 encoding of one Unicode scalar value, as performed by
`Buffer.from(s, 'utf8')`. -/
def utf8EncodeCodepoint (c : Nat) : List Nat :=
  if c < 0x80 then [c]
  else if c < 0x800 then [0xC0 + c / 64, 0x80 + c % 64]
  else if c < 0x10000 then [0xE0 + c / 4096, 0x80 + c / 64 % 64, 0x80 + c % 64]
  else [0xF0 + c / 262144, 0x80 + c / 4096 % 64, 0x80 + c / 64 % 64, 0x80 + c % 64]

/-- UTF-8 encoding of a string, as performed by `Buffer.from(s, 'utf8')`
(Lean strings are sequences of Unicode scalar values, so surrogate handling
does not arise). -/
def utf8Bytes (s : String) : List Nat :=
  (s.data.map (fun ch => utf8EncodeCodepoint ch.toNat)).flatten

/-- The two-stage accumulator invariant holding between `processData` calls:
either no expected length is known, the length accumulator holds at most 3
bytes and the payload accumulator is empty; or an expected length `L` is
known, the length accumulator is empty, and the payload accumulator holds
fewer than `L` bytes. -/
def FramerInv : Framer → Prop
  | ⟨lb, mb, none⟩ => lb.length ≤ 3 ∧ mb = []
  | ⟨lb, mb, some L⟩ => lb = [] ∧ mb.length < L

instance : (st : Framer) → Decidable (FramerInv st)
  | ⟨lb, mb, none⟩ => inferInstanceAs (Decidable (lb.length ≤ 3 ∧ mb = []))
  | ⟨lb, mb, some L⟩ => inferInstanceAs (Decidable (lb = [] ∧ mb.length < L))

/-- Byte-at-a-time semantics of the framer loop, used as a proof-friendly
normal form: feeding a single byte either errors, emits a completed payload,
or just updates the accumulators.  Agrees with `processData` from every
state satisfying `FramerInv` (theorem `processLoop_eq_specRun`). -/
def byteStep (st : Framer) (c : Nat) : Framer × Option (List Nat) × Bool :=
  match st.expectedLength with
  | none =>
    let lb := st.lengthBuffer ++ [c]
    if lb.length = 4 then
      let L := readInt32BE lb
      if L ≤ 0 ∨ (MAX_MESSAGE_LENGTH : Int) < L then (initialFramer, (none, true))
      else (⟨[], st.messageBuffer, some L.toNat⟩, (none, false))
    else (⟨lb, st.messageBuffer, none⟩, (none, false))
  | some L =>
    let mb := st.messageBuffer ++ [c]
    if mb.length = L then (initialFramer, (some mb, false))
    else (⟨st.lengthBuffer, mb, some L⟩, (none, false))

/-- Folding `byteStep` over a byte list, stopping (and discarding the rest
of the list) at a framing error, exactly as the source's early `return`
does. -/
def specRun (st : Framer) : List Nat → Framer × List (List Nat) × Bool
  | [] => (st, ([], false))
  | c :: rest =>
    match byteStep st c with
    | (st1, (_, true)) => (st1, ([], true))
    | (st1, (out, false)) =>
      match specRun st1 rest with
      | (st2, (outs, e)) => (st2, (out.elim outs (· :: outs), e))

/-! ## Response correlation (`handleResponse`, `sendCommand`'s callback and
timeout closure, `generateRequestId`) -/

/-- JSON values as produced by the platform `JSON.parse` (numbers modelled
as integers; the claims under verification only involve integral values). -/
inductive JValue where
  | null
  | bool (b : Bool)
  | num (n : Int)
  | str (s : String)
  | arr (xs : List JValue)
  | obj (fields : List (String × JValue))

/-- JavaScript truthiness of a JSON value (`if (v)`): `null`, `false`, `0`
and `""` are falsy; arrays and objects are always truthy. -/
def truthy : JValue → Bool
  | .null => false
  | .bool b => b
  | .num n => n != 0
  | .str s => s != ""
  | .arr _ => true
  | .obj _ => true

/-- Property lookup on a parsed JSON object: with duplicate keys
`JSON.parse` keeps the last occurrence. -/
def lookupLast (fields : List (String × JValue)) (k : String) : Option JValue :=
  fields.foldl (fun acc kv => if kv.1 = k then some kv.2 else acc) none

/-- Result of a JavaScript property access `v.k`: a `TypeError` is thrown
when `v` is `null`; otherwise the access yields the field's value, or
`undefined` (modelled `none`) when absent (including on primitives). -/
inductive PropAccess where
  | thrown
  | ok (v : Option JValue)

/-- JavaScript property access `v.k` on a `JSON.parse` result. -/
def getProp : JValue → String → PropAccess
  | .null, _ => .thrown
  | .obj fields, k => .ok (lookupLast fields k)
  | _, _ => .ok none

/-- The request identifier `handleResponse` uses for the registry lookup:
`response.id || "default"` (source line 107).  `none` models the access
throwing (caught by `handleResponse`'s `try`/`catch`, which then drops the
payload). -/
def requestIdOf (response : JValue) : Option JValue :=
  match getProp response "id" with
  | .thrown => none
  | .ok none => some (.str "default")
  | .ok (some v) => some (if truthy v then v else .str "default")

/-- Observable settlement of the promise returned by one `sendCommand`
call. -/
inductive Outcome where
  | resolved (result : Option JValue)
  | rejectedError (message : JValue)
  | rejectedParse
  | rejectedTimeout (command : String)

/-- `response.result` (source line 167); `undefined` when absent. -/
def resultOf (response : JValue) : Option JValue :=
  match getProp response "result" with
  | .ok v => v
  | .thrown => none

/-- `response.error.message || "Unknown error from Revit"` (source line
164). -/
def errorMessageOf (e : JValue) : JValue :=
  match getProp e "message" with
  | .ok (some m) => if truthy m then m else .str "Unknown error from Revit"
  | _ => .str "Unknown error from Revit"

/-- The response callback registered by `sendCommand` (source lines
159-176), as a function from the delivered raw payload to the settlement of
the caller's promise: parse the payload (a thrown `SyntaxError`, or a
`TypeError` from accessing `.error` on a `null` result, is caught and
rejects with the `Failed to parse response` error, here
`Outcome.rejectedParse`); a truthy `error` field rejects with its message;
otherwise the promise resolves with the `result` field. -/
def callbackOutcome (parse : String → Option JValue) (responseData : String) : Outcome :=
  match parse responseData with
  | none => .rejectedParse
  | some response =>
    match getProp response "error" with
    | .thrown => .rejectedParse
    | .ok none => .resolved (resultOf response)
    | .ok (some e) =>
      if truthy e then .rejectedError (errorMessageOf e)
      else .resolved (resultOf response)

/-- The key set of `responseCallbacks` (a string-keyed JS `Map`; every
stored value is the uniform `sendCommand` response callback, so the map is
modelled by its list of keys, unique in insertion order). -/
abbrev Registry := List String

/-- `handleResponse(responseData)` (source lines 104-118): parse the
payload, compute `response.id || "default"`, look the key up in
`responseCallbacks`; on a hit, invoke the callback (settling that request's
promise) and delete the registration; on a parse failure or a miss, do
nothing.  A non-string id never matches, since `Map.get` compares with
SameValueZero against string keys.  Returns the new registry and the
settlements performed (request id paired with outcome). -/
def handleResponse (parse : String → Option JValue) (cbs : Registry)
    (responseData : String) : Registry × List (String × Outcome) :=
  match parse responseData with
  | none => (cbs, [])
  | some response =>
    match requestIdOf response with
    | none => (cbs, [])
    | some rid =>
      match rid with
      | .str k =>
        if cbs.contains k then (cbs.erase k, [(k, callbackOutcome parse responseData)])
        else (cbs, [])
      | _ => (cbs, [])

/-- The timeout closure registered by `sendCommand` (source lines 187-192):
when it fires, if the request id is still registered, remove it and reject
the caller's promise with the timeout error carrying the method name. -/
def expire (cbs : Registry) (requestId : String) (command : String) :
    Registry × List (String × Outcome) :=
  if cbs.contains requestId then
    (cbs.erase requestId, [(requestId, .rejectedTimeout command)])
  else (cbs, [])

/-- The timeout duration passed to `setTimeout` in `sendCommand` (source
line 192): a fixed literal, not a parameter of `sendCommand`. -/
def sendCommandTimeoutMs : Nat := 120000

/-- Modelled from the spec: the spec's `sendCommand(method, params,
timeoutMs = 120000)` contract, in which the timeout window is a per-call
parameter defaulting to 120000 ms.  (The source `sendCommand` has no such
parameter; this definition exists to be compared against
`sendCommandTimeoutMs`.) -/
def specTimeoutWindow (timeoutMs : Option Nat) : Nat :=
  timeoutMs.getD 120000

/-- The decimal digit character for `d < 10`. -/
def digitChar (d : Nat) : Char := Char.ofNat (48 + d)

/-- Auxiliary decimal rendering (most significant digit first); `fuel`
bounds the recursion depth and is always taken large enough. -/
def natToDecimalCore : Nat → Nat → List Char
  | 0, _ => []
  | _ + 1, 0 => []
  | fuel + 1, n => natToDecimalCore fuel (n / 10) ++ [digitChar (n % 10)]

/-- `Number.prototype.toString()` for a non-negative integer (the value of
`Date.now()`): its decimal digits. -/
def natToDecimal (n : Nat) : String :=
  if n = 0 then "0" else ⟨natToDecimalCore n n⟩

/-- `generateRequestId()` (source lines 139-141):
`Date.now().toString() + Math.random().toString().substring(2, 8)`.
`now` is the value of `Date.now()` and `randomRepr` the string rendering of
`Math.random()`; `substring(2, 8)` is the characters at indices 2 to 7. -/
def generateRequestId (now : Nat) (randomRepr : String) : String :=
  natToDecimal now ++ ((randomRepr.drop 2).take 6)

/-- Registration performed by one `sendCommand` call (source line 159):
`responseCallbacks.set(requestId, ...)`.  On a string-keyed `Map`, `set`
keeps the existing key position or appends a new key. -/
def sendCommandRegister (cbs : Registry) (now : Nat) (randomRepr : String) :
    Registry × String :=
  let rid := generateRequestId now randomRepr
  (if cbs.contains rid then cbs else cbs ++ [rid], rid)

theorem byteStep_absorb_length {lb : List Nat} {c : Nat} (mb : List Nat)
    (h : (lb ++ [c]).length ≠ 4) :
    byteStep ⟨lb, mb, none⟩ c = (⟨lb ++ [c], mb, none⟩, (none, false)) := by
  simp only [byteStep]
  rw [if_neg h]

theorem byteStep_decode {lb : List Nat} {c : Nat} (mb : List Nat)
    (h : (lb ++ [c]).length = 4) :
    byteStep ⟨lb, mb, none⟩ c =
      (if readInt32BE (lb ++ [c]) ≤ 0 ∨ (MAX_MESSAGE_LENGTH : Int) < readInt32BE (lb ++ [c]) then
        (initialFramer, (none, true))
      else (⟨[], mb, some (readInt32BE (lb ++ [c])).toNat⟩, (none, false))) := by
  simp only [byteStep]
  rw [if_pos h]

theorem byteStep_absorb_message {mb : List Nat} {c L : Nat} (lb : List Nat)
    (h : (mb ++ [c]).length ≠ L) :
    byteStep ⟨lb, mb, some L⟩ c = (⟨lb, mb ++ [c], some L⟩, (none, false)) := by
  simp only [byteStep]
  rw [if_neg h]

theorem byteStep_complete {mb : List Nat} {c L : Nat} (lb : List Nat)
    (h : (mb ++ [c]).length = L) :
    byteStep ⟨lb, mb, some L⟩ c = (initialFramer, (some (mb ++ [c]), false)) := by
  simp only [byteStep]
  rw [if_pos h]

theorem specRun_cons (st : Framer) (c : Nat) (rest : List Nat) :
    specRun st (c :: rest) =
      match byteStep st c with
      | (st1, (_, true)) => (st1, ([], true))
      | (st1, (out, false)) =>
        match specRun st1 rest with
        | (st2, (outs, e)) => (st2, (out.elim outs (· :: outs), e)) := rfl

/-- A byte that neither errors nor completes a frame just advances the
state. -/
theorem specRun_cons_skip {st : Framer} {c : Nat} {st1 : Framer}
    (h : byteStep st c = (st1, (none, false))) (rest : List Nat) :
    specRun st (c :: rest) = specRun st1 rest := by
  rw [specRun_cons, h]
  rcases hs : specRun st1 rest with ⟨st2, outs, e⟩
  simp [hs]

/-- A byte completing a frame emits the payload in front of whatever the
rest of the input produces. -/
theorem specRun_cons_emit {st : Framer} {c : Nat} {st1 : Framer} {p : List Nat}
    (h : byteStep st c = (st1, (some p, false))) (rest : List Nat) :
    specRun st (c :: rest) =
      ((specRun st1 rest).1, (p :: (specRun st1 rest).2.1, (specRun st1 rest).2.2)) := by
  rw [specRun_cons, h]
  rcases hs : specRun st1 rest with ⟨st2, outs, e⟩
  simp [hs]

/-- A byte triggering the length-validation error stops the run and
discards the rest of the input. -/
theorem specRun_cons_err {st : Framer} {c : Nat} {st1 : Framer} {o : Option (List Nat)}
    (h : byteStep st c = (st1, (o, true))) (rest : List Nat) :
    specRun st (c :: rest) = (st1, ([], true)) := by
  rw [specRun_cons, h]

/-- Stage-1 absorption: bytes that do not complete the length prefix are
appended to the length accumulator. -/
theorem specRun_absorb_length (xs : List Nat) : ∀ (lb mb : List Nat),
    lb.length + xs.length ≤ 3 →
    specRun ⟨lb, mb, none⟩ xs = (⟨lb ++ xs, mb, none⟩, ([], false)) := by
  induction xs with
  | nil => intro lb mb _; simp [specRun]
  | cons c rest ih =>
    intro lb mb h
    simp only [List.length_cons] at h
    have hlen4 : (lb ++ [c]).length ≠ 4 := by simp; omega
    have hstep := byteStep_absorb_length mb hlen4
    rw [specRun_cons_skip hstep, ih (lb ++ [c]) mb (by simp; omega)]
    simp

/-- Stage-2 absorption: bytes that do not complete the payload are appended
to the message accumulator. -/
theorem specRun_absorb_message (xs : List Nat) : ∀ (lb mb : List Nat) (L : Nat),
    mb.length + xs.length < L →
    specRun ⟨lb, mb, some L⟩ xs = (⟨lb, mb ++ xs, some L⟩, ([], false)) := by
  induction xs with
  | nil => intro lb mb L _; simp [specRun]
  | cons c rest ih =>
    intro lb mb L h
    simp only [List.length_cons] at h
    have hlenL : (mb ++ [c]).length ≠ L := by simp; omega
    have hstep := byteStep_absorb_message lb hlenL
    rw [specRun_cons_skip hstep, ih lb (mb ++ [c]) L (by simp; omega)]
    simp

/-- Stage-1 completion: the bytes completing the 4-byte prefix trigger the
decode-and-validate step; on violation the error is raised and the rest of
the input is discarded, otherwise processing continues in stage 2. -/
theorem specRun_complete_length (xs : List Nat) : ∀ (lb mb rest : List Nat),
    lb.length ≤ 3 → (lb ++ xs).length = 4 →
    specRun ⟨lb, mb, none⟩ (xs ++ rest) =
      (if readInt32BE (lb ++ xs) ≤ 0 ∨ (MAX_MESSAGE_LENGTH : Int) < readInt32BE (lb ++ xs) then
        (initialFramer, ([], true))
      else specRun ⟨[], mb, some (readInt32BE (lb ++ xs)).toNat⟩ rest) := by
  induction xs with
  | nil => intro lb mb rest h3 h4; simp at h4; omega
  | cons c tl ih =>
    intro lb mb rest h3 h4
    simp only [List.length_append, List.length_cons] at h4
    cases tl with
    | nil =>
      have hlb : (lb ++ [c]).length = 4 := by
        simp only [List.length_nil, List.length_cons] at h4
        simp
        omega
      have hstep := byteStep_decode mb hlb
      by_cases hbad : readInt32BE (lb ++ [c]) ≤ 0 ∨
          (MAX_MESSAGE_LENGTH : Int) < readInt32BE (lb ++ [c])
      · rw [if_pos hbad] at hstep
        simp only [List.cons_append, List.nil_append]
        rw [specRun_cons_err hstep, if_pos hbad]
      · rw [if_neg hbad] at hstep
        simp only [List.cons_append, List.nil_append]
        rw [specRun_cons_skip hstep, if_neg hbad]
    | cons d tl2 =>
      simp only [List.length_cons] at h4
      have hlb : (lb ++ [c]).length ≠ 4 := by simp; omega
      have hstep := byteStep_absorb_length mb hlb
      have hrec := ih (lb ++ [c]) mb rest (by simp; omega) (by simp; omega)
      rw [show (lb ++ [c]) ++ (d :: tl2) = lb ++ (c :: d :: tl2) by simp] at hrec
      simp only [List.cons_append]
      rw [specRun_cons_skip hstep]
      exact hrec

/-- Stage-2 completion: the bytes completing the payload emit it and reset
the state; the rest of the input is processed from the reset state. -/
theorem specRun_complete_message (xs : List Nat) : ∀ (lb mb rest : List Nat) (L : Nat),
    mb.length < L → (mb ++ xs).length = L →
    specRun ⟨lb, mb, some L⟩ (xs ++ rest) =
      ((specRun initialFramer rest).1,
       ((mb ++ xs) :: (specRun initialFramer rest).2.1, (specRun initialFramer rest).2.2)) := by
  induction xs with
  | nil => intro lb mb rest L h1 h2; simp at h2; omega
  | cons c tl ih =>
    intro lb mb rest L h1 h2
    simp only [List.length_append, List.length_cons] at h2
    cases tl with
    | nil =>
      have hc : (mb ++ [c]).length = L := by
        simp only [List.length_nil] at h2
        simp
        omega
      have hstep := byteStep_complete lb hc
      simp only [List.cons_append, List.nil_append]
      rw [specRun_cons_emit hstep]
    | cons d tl2 =>
      simp only [List.length_cons] at h2
      have hc : (mb ++ [c]).length ≠ L := by simp; omega
      have hstep := byteStep_absorb_message lb hc
      have hrec := ih lb (mb ++ [c]) rest L (by simp; omega) (by simp; omega)
      rw [show (mb ++ [c]) ++ (d :: tl2) = mb ++ (c :: d :: tl2) by simp] at hrec
      simp only [List.cons_append]
      rw [specRun_cons_skip hstep]
      exact hrec

/-- Decomposition of a single byte-level run over concatenated input: an
error inside `a` discards `b`, otherwise the run continues on `b` from the
state reached after `a` and the emissions concatenate. -/
theorem specRun_append (a : List Nat) : ∀ (st : Framer) (b : List Nat),
    specRun st (a ++ b) =
      if (specRun st a).2.2 then specRun st a
      else ((specRun (specRun st a).1 b).1,
            ((specRun st a).2.1 ++ (specRun (specRun st a).1 b).2.1,
             (specRun (specRun st a).1 b).2.2)) := by
  induction a with
  | nil =>
    intro st b
    rcases h : specRun st b with ⟨s2, o2, e2⟩
    simp [specRun, h]
  | cons c tl ih =>
    intro st b
    rcases hb : byteStep st c with ⟨st1, o, e⟩
    cases e with
    | true =>
      rw [List.cons_append, specRun_cons_err hb, specRun_cons_err hb]
      simp
    | false =>
      cases o with
      | none =>
        rw [List.cons_append, specRun_cons_skip hb, specRun_cons_skip hb, ih st1 b]
      | some p =>
        rw [List.cons_append, specRun_cons_emit hb, specRun_cons_emit hb, ih st1 b]
        rcases h1 : specRun st1 tl with ⟨s2, o2, e2⟩
        cases e2 with
        | true => simp [h1]
        | false =>
          rcases h2 : specRun s2 b with ⟨s3, o3, e3⟩
          simp [h1, h2]

/-- `byteStep` preserves the two-stage accumulator invariant. -/
theorem byteStep_inv {st : Framer} (c : Nat) (h : FramerInv st) :
    FramerInv (byteStep st c).1 := by
  rcases st with ⟨lb, mb, eL⟩
  cases eL with
  | none =>
    obtain ⟨h3, hmb⟩ := h
    by_cases h4 : (lb ++ [c]).length = 4
    · rw [byteStep_decode mb h4]
      by_cases hbad : readInt32BE (lb ++ [c]) ≤ 0 ∨
          (MAX_MESSAGE_LENGTH : Int) < readInt32BE (lb ++ [c])
      · rw [if_pos hbad]; exact ⟨by simp, rfl⟩
      · rw [if_neg hbad]
        refine ⟨rfl, ?_⟩
        subst hmb
        simp only [List.length_nil]
        omega
    · rw [byteStep_absorb_length mb h4]
      refine ⟨?_, hmb⟩
      simp only [List.length_append, List.length_cons, List.length_nil] at h4 ⊢
      omega
  | some L =>
    obtain ⟨hlb, hmb⟩ := h
    by_cases hc : (mb ++ [c]).length = L
    · rw [byteStep_complete lb hc]; exact ⟨by simp, rfl⟩
    · rw [byteStep_absorb_message lb hc]
      refine ⟨hlb, ?_⟩
      simp only [List.length_append, List.length_cons, List.length_nil] at hc ⊢
      omega

/-- A byte-level run preserves the two-stage accumulator invariant. -/
theorem specRun_inv (xs : List Nat) : ∀ (st : Framer), FramerInv st →
    FramerInv (specRun st xs).1 := by
  induction xs with
  | nil => intro st h; exact h
  | cons c tl ih =>
    intro st h
    have hstep := byteStep_inv c h
    rcases hb : byteStep st c with ⟨st1, o, e⟩
    rw [hb] at hstep
    cases e with
    | true => rw [specRun_cons_err hb]; exact hstep
    | false =>
      cases o with
      | none => rw [specRun_cons_skip hb]; exact ih st1 hstep
      | some p => rw [specRun_cons_emit hb]; exact ih st1 hstep

theorem step1_passthrough (lb mb : List Nat) (L : Nat) (rem : List Nat) :
    step1 ⟨lb, mb, some L⟩ rem = .ok ⟨lb, mb, some L⟩ rem := rfl

theorem step1_complete {lb : List Nat} {rem : List Nat} (mb : List Nat)
    (hlb : lb.length ≤ 3) (h : 4 - lb.length ≤ rem.length) :
    step1 ⟨lb, mb, none⟩ rem =
      (if readInt32BE (lb ++ rem.take (4 - lb.length)) ≤ 0 ∨
          (MAX_MESSAGE_LENGTH : Int) < readInt32BE (lb ++ rem.take (4 - lb.length)) then
        .err
      else .ok ⟨[], mb, some (readInt32BE (lb ++ rem.take (4 - lb.length))).toNat⟩
          (rem.drop (4 - lb.length))) := by
  have hmin : min (4 - lb.length) rem.length = 4 - lb.length := Nat.min_eq_left h
  have hlen : (lb ++ rem.take (min (4 - lb.length) rem.length)).length = 4 := by
    simp only [List.length_append, List.length_take]
    omega
  rw [hmin] at hlen
  simp only [step1, hmin]
  rw [if_pos hlen]

theorem step1_incomplete {lb : List Nat} {rem : List Nat} (mb : List Nat)
    (h : rem.length < 4 - lb.length) :
    step1 ⟨lb, mb, none⟩ rem = .ok ⟨lb ++ rem, mb, none⟩ [] := by
  have hmin : min (4 - lb.length) rem.length = rem.length := Nat.min_eq_right (by omega)
  have hlen : (lb ++ rem.take (min (4 - lb.length) rem.length)).length ≠ 4 := by
    simp only [List.length_append, List.length_take]
    omega
  simp only [step1, hmin, List.take_length, List.drop_length]
  rw [if_neg (by rw [hmin] at hlen; simpa using hlen)]

theorem step2_passthrough (lb mb : List Nat) (rem : List Nat) :
    step2 ⟨lb, mb, none⟩ rem = (⟨lb, mb, none⟩, rem, none) := rfl

theorem step2_complete {mb : List Nat} {L : Nat} {rem : List Nat} (lb : List Nat)
    (hmb : mb.length ≤ L) (h : L - mb.length ≤ rem.length) :
    step2 ⟨lb, mb, some L⟩ rem =
      (initialFramer, rem.drop (L - mb.length), some (mb ++ rem.take (L - mb.length))) := by
  have hmin : min (L - mb.length) rem.length = L - mb.length := Nat.min_eq_left h
  have hlen : (mb ++ rem.take (min (L - mb.length) rem.length)).length = L := by
    simp only [List.length_append, List.length_take]
    omega
  rw [hmin] at hlen
  simp only [step2, hmin]
  rw [if_pos hlen]

theorem step2_incomplete {mb : List Nat} {L : Nat} {rem : List Nat} (lb : List Nat)
    (h : rem.length < L - mb.length) :
    step2 ⟨lb, mb, some L⟩ rem = (⟨lb, mb ++ rem, some L⟩, [], none) := by
  have hmin : min (L - mb.length) rem.length = rem.length := Nat.min_eq_right (by omega)
  have hlen : (mb ++ rem.take (min (L - mb.length) rem.length)).length ≠ L := by
    simp only [List.length_append, List.length_take]
    omega
  simp only [step2, hmin, List.take_length, List.drop_length]
  rw [if_neg (by rw [hmin] at hlen; simpa using hlen)]

theorem processLoop_nil (fuel : Nat) (st : Framer) :
    processLoop fuel st [] = some (st, ([], false)) := by
  cases fuel <;> rfl

theorem processLoop_iter {fuel : Nat} {st st1 st2 stf : Framer} {c : Nat}
    {rest rem1 rem2 : List Nat} {out : Option (List Nat)} {outs : List (List Nat)} {e : Bool}
    (h1 : step1 st (c :: rest) = .ok st1 rem1)
    (h2 : step2 st1 rem1 = (st2, rem2, out))
    (h3 : processLoop fuel st2 rem2 = some (stf, (outs, e))) :
    processLoop (fuel + 1) st (c :: rest) = some (stf, (out.elim outs (· :: outs), e)) := by
  simp only [processLoop, h1, h2, h3]

theorem processLoop_iter_err {fuel : Nat} {st : Framer} {c : Nat} {rest : List Nat}
    (h1 : step1 st (c :: rest) = .err) :
    processLoop (fuel + 1) st (c :: rest) = some (initialFramer, ([], true)) := by
  simp only [processLoop, h1]

theorem framerInv_initial : FramerInv initialFramer := ⟨by simp, rfl⟩

/-- The chunk-at-a-time loop of the source agrees with the byte-at-a-time
semantics from every state satisfying the accumulator invariant, given
enough fuel (one unit per loop iteration; every iteration consumes at least
one byte). -/
theorem processLoop_eq_specRun : ∀ (fuel : Nat) (st : Framer) (rem : List Nat),
    FramerInv st → rem.length ≤ fuel →
    processLoop fuel st rem = some (specRun st rem) := by
  intro fuel
  induction fuel with
  | zero =>
    intro st rem _ hf
    cases rem with
    | nil => rfl
    | cons c r => simp at hf
  | succ fuel ih =>
    intro st rem hinv hf
    cases rem with
    | nil => rw [processLoop_nil]; rfl
    | cons c rest =>
      simp only [List.length_cons] at hf
      rcases st with ⟨lb, mb, eL⟩
      cases eL with
      | none =>
        obtain ⟨h3, hmbe⟩ := hinv
        subst hmbe
        by_cases hA : 4 - lb.length ≤ rest.length + 1
        · -- the length prefix completes during this iteration
          have hAc : 4 - lb.length ≤ (c :: rest).length := by
            simp only [List.length_cons]; omega
          have hs1 := step1_complete [] h3 hAc
          by_cases hbad : readInt32BE (lb ++ (c :: rest).take (4 - lb.length)) ≤ 0 ∨
              (MAX_MESSAGE_LENGTH : Int) <
                readInt32BE (lb ++ (c :: rest).take (4 - lb.length))
          · rw [if_pos hbad] at hs1
            rw [processLoop_iter_err hs1]
            conv_rhs => rw [← List.take_append_drop (4 - lb.length) (c :: rest)]
            rw [specRun_complete_length ((c :: rest).take (4 - lb.length)) lb []
              ((c :: rest).drop (4 - lb.length)) h3
              (by simp only [List.length_append, List.length_take, List.length_cons]; omega)]
            rw [if_pos hbad]
          · rw [if_neg hbad] at hs1
            have hLpos : 0 < (readInt32BE (lb ++ (c :: rest).take (4 - lb.length))).toNat := by
              rcases not_or.mp hbad with ⟨hp, _⟩
              omega
            set L := (readInt32BE (lb ++ (c :: rest).take (4 - lb.length))).toNat with hLdef
            set rem1 := (c :: rest).drop (4 - lb.length) with hrem1
            have hrem1len : rem1.length = (rest.length + 1) - (4 - lb.length) := by
              rw [hrem1]
              simp only [List.length_drop, List.length_cons]
            have htpos : 1 ≤ 4 - lb.length := by omega
            by_cases hC : L ≤ rem1.length
            · -- the payload also completes during this iteration
              have hCa : L - ([] : List Nat).length ≤ rem1.length := by simpa using hC
              have hs2 := step2_complete [] (by simp) hCa
              simp only [List.length_nil, Nat.sub_zero, List.nil_append] at hs2
              have hdroplen : (rem1.drop L).length ≤ fuel := by
                simp only [List.length_drop]
                omega
              have h3rec := ih initialFramer (rem1.drop L) framerInv_initial hdroplen
              rw [processLoop_iter hs1 hs2 h3rec]
              conv_rhs => rw [← List.take_append_drop (4 - lb.length) (c :: rest)]
              rw [specRun_complete_length ((c :: rest).take (4 - lb.length)) lb []
                ((c :: rest).drop (4 - lb.length)) h3
                (by simp only [List.length_append, List.length_take, List.length_cons]; omega)]
              rw [if_neg hbad, ← hrem1, ← hLdef]
              conv_rhs => rw [← List.take_append_drop L rem1]
              rw [specRun_complete_message (rem1.take L) [] [] (rem1.drop L) L
                (by simpa using hLpos)
                (by simp only [List.length_append, List.length_take, List.length_nil]; omega)]
              simp
            · -- the payload is still incomplete when the chunk ends
              have hCa : rem1.length < L - ([] : List Nat).length := by
                simp only [List.length_nil, Nat.sub_zero]; omega
              have hs2 := step2_incomplete [] hCa
              simp only [List.nil_append] at hs2
              rw [processLoop_iter hs1 hs2 (processLoop_nil fuel _)]
              conv_rhs => rw [← List.take_append_drop (4 - lb.length) (c :: rest)]
              rw [specRun_complete_length ((c :: rest).take (4 - lb.length)) lb []
                ((c :: rest).drop (4 - lb.length)) h3
                (by simp only [List.length_append, List.length_take, List.length_cons]; omega)]
              rw [if_neg hbad, ← hrem1, ← hLdef]
              rw [specRun_absorb_message rem1 [] [] L (by simp only [List.length_nil]; omega)]
              simp
        · -- the whole chunk is absorbed into the length accumulator
          have hAc : (c :: rest).length < 4 - lb.length := by
            simp only [List.length_cons]; omega
          have hs1 := step1_incomplete [] hAc
          have hs2 := step2_passthrough (lb ++ (c :: rest)) [] []
          rw [processLoop_iter hs1 hs2 (processLoop_nil fuel _)]
          rw [specRun_absorb_length (c :: rest) lb []
            (by simp only [List.length_cons]; omega)]
          simp
      | some L =>
        obtain ⟨hlbe, hmb⟩ := hinv
        subst hlbe
        have hs1 := step1_passthrough [] mb L (c :: rest)
        by_cases hC : L - mb.length ≤ rest.length + 1
        · -- the payload completes during this iteration
          have hCa : L - mb.length ≤ (c :: rest).length := by
            simp only [List.length_cons]; omega
          have hs2 := step2_complete [] (Nat.le_of_lt hmb) hCa
          have htpos : 1 ≤ L - mb.length := by omega
          have hdroplen : ((c :: rest).drop (L - mb.length)).length ≤ fuel := by
            simp only [List.length_drop, List.length_cons]
            omega
          have h3rec := ih initialFramer ((c :: rest).drop (L - mb.length))
            framerInv_initial hdroplen
          rw [processLoop_iter hs1 hs2 h3rec]
          conv_rhs => rw [← List.take_append_drop (L - mb.length) (c :: rest)]
          rw [specRun_complete_message ((c :: rest).take (L - mb.length)) [] mb
            ((c :: rest).drop (L - mb.length)) L hmb
            (by simp only [List.length_append, List.length_take, List.length_cons]; omega)]
          simp
        · -- the whole chunk is absorbed into the message accumulator
          have hCa : (c :: rest).length < L - mb.length := by
            simp only [List.length_cons]; omega
          have hs2 := step2_incomplete [] hCa
          rw [processLoop_iter hs1 hs2 (processLoop_nil fuel _)]
          rw [specRun_absorb_message (c :: rest) [] mb L
            (by simp only [List.length_cons]; omega)]
          simp

/-- `processData` computes the byte-at-a-time semantics from every state
satisfying the accumulator invariant. -/
theorem processData_eq_specRun (st : Framer) (data : List Nat) (h : FramerInv st) :
    processData st data = some (specRun st data) :=
  processLoop_eq_specRun data.length st data h (Nat.le_refl _)

/-- `processData` preserves the two-stage accumulator invariant. -/
theorem processData_inv {st : Framer} {data : List Nat} {r : Framer × List (List Nat) × Bool}
    (hinv : FramerInv st) (h : processData st data = some r) : FramerInv r.1 := by
  rw [processData_eq_specRun st data hinv] at h
  have hr : r = specRun st data := (Option.some.inj h).symm
  rw [hr]
  exact specRun_inv data st hinv

/-- Decoding the sender's big-endian length prefix recovers the length. -/
theorem readInt32BE_writeInt32BE {n : Nat} (h : n < 2 ^ 31) :
    readInt32BE (writeInt32BE n) = (n : Int) := by
  simp only [writeInt32BE, readInt32BE]
  have h1 : n / 2 ^ 24 % 256 * 2 ^ 24 + n / 2 ^ 16 % 256 * 2 ^ 16 +
      n / 2 ^ 8 % 256 * 2 ^ 8 + n % 256 = n := by omega
  rw [h1, if_pos h]

/-- A well-formed frame at the head of the input emits exactly its payload
and continues from the reset state. -/
theorem specRun_frame (p rest : List Nat) (h1 : 0 < p.length)
    (h2 : p.length ≤ MAX_MESSAGE_LENGTH) :
    specRun initialFramer (encodeFrame p ++ rest) =
      ((specRun initialFramer rest).1,
       (p :: (specRun initialFramer rest).2.1, (specRun initialFramer rest).2.2)) := by
  have hlt : p.length < 2 ^ 31 := by
    have : MAX_MESSAGE_LENGTH < 2 ^ 31 := by decide
    omega
  have hr : readInt32BE ([] ++ writeInt32BE p.length) = (p.length : Int) := by
    rw [List.nil_append]
    exact readInt32BE_writeInt32BE hlt
  rw [encodeFrame, List.append_assoc]
  conv_lhs => rw [show initialFramer = (⟨[], [], none⟩ : Framer) from rfl]
  rw [specRun_complete_length (writeInt32BE p.length) [] [] (p ++ rest) (by simp)
    (by simp [writeInt32BE])]
  rw [hr, if_neg (by omega)]
  rw [show ((p.length : Int)).toNat = p.length from Int.toNat_natCast _]
  rw [specRun_complete_message p [] [] rest p.length (by simpa using h1) (by simp)]
  simp

/-- Feeding chunks one at a time computes the byte-level run of their
concatenation, provided no framing error occurs. -/
theorem feedAll_join (cs : List (List Nat)) : ∀ (st stf : Framer) (outs : List (List Nat)),
    FramerInv st → specRun st cs.flatten = (stf, (outs, false)) →
    feedAll st cs = some (stf, (outs, false)) := by
  induction cs with
  | nil =>
    intro st stf outs _ h
    simp only [List.flatten_nil, specRun, Prod.mk.injEq] at h
    obtain ⟨h1, h2, -⟩ := h
    simp only [feedAll]
    rw [h1, h2]
  | cons c cs ih =>
    intro st stf outs hinv h
    rw [List.flatten_cons, specRun_append c st cs.flatten] at h
    rcases hc : specRun st c with ⟨st1, o1, e1⟩
    rw [hc] at h
    cases e1 with
    | true => simp at h
    | false =>
      rcases hrest : specRun st1 cs.flatten with ⟨st2, o2, e2⟩
      rw [hrest] at h
      simp only [Bool.false_eq_true, if_false, Prod.mk.injEq] at h
      obtain ⟨hstf, houts, hflag⟩ := h
      have hpd : processData st c = some (st1, (o1, false)) := by
        rw [processData_eq_specRun st c hinv, hc]
      have hinv1 : FramerInv st1 := by
        have := specRun_inv c st hinv
        rw [hc] at this
        exact this
      have hfa := ih st1 st2 o2 hinv1 (by rw [hrest, hflag])
      simp only [feedAll, hpd, hfa]
      rw [hstf, houts]
      simp

/-- Claim C1.  Framing round-trip: for every payload string whose UTF-8
encoding is nonempty and at most `10 * 1024 * 1024` bytes long, encoding it
as the Sender does (4-byte big-endian length followed by the payload bytes)
and feeding the result to the framer split into arbitrarily sized chunks
emits exactly one payload, whose bytes are exactly the UTF-8 encoding of
the original string (the source hands `handleResponse` its UTF-8 decoding,
which is the original string), with no framing error, and leaves the framer
fully reset. -/
theorem framing_roundtrip (s : String) (cs : List (List Nat))
    (h1 : 0 < (utf8Bytes s).length) (h2 : (utf8Bytes s).length ≤ MAX_MESSAGE_LENGTH)
    (hj : cs.flatten = encodeFrame (utf8Bytes s)) :
    feedAll initialFramer cs = some (initialFramer, ([utf8Bytes s], false)) := by
  apply feedAll_join cs initialFramer initialFramer [utf8Bytes s] framerInv_initial
  rw [hj]
  have hframe := specRun_frame (utf8Bytes s) [] h1 h2
  rw [List.append_nil] at hframe
  rw [hframe]
  simp [specRun]

theorem framing_roundtrip_witness :
    0 < (utf8Bytes "ok").length ∧ (utf8Bytes "ok").length ≤ MAX_MESSAGE_LENGTH ∧
    [[0], [0], [0], [2], [111], [107]].flatten = encodeFrame (utf8Bytes "ok") ∧
    feedAll initialFramer [[0], [0], [0], [2], [111], [107]] =
      some (initialFramer, ([utf8Bytes "ok"], false)) :=
  ⟨by decide, by decide, by decide,
   framing_roundtrip "ok" [[0], [0], [0], [2], [111], [107]]
     (by decide) (by decide) (by decide)⟩

/-- Claim C2.  Boundary straddling: concatenating two valid frames and
splitting the byte stream at any offset `k` into two `processData` calls
emits both payloads, in order, exactly once each, with no framing error. -/
theorem boundary_straddling (p1 p2 : List Nat) (k : Nat)
    (h11 : 0 < p1.length) (h12 : p1.length ≤ MAX_MESSAGE_LENGTH)
    (h21 : 0 < p2.length) (h22 : p2.length ≤ MAX_MESSAGE_LENGTH) :
    feedAll initialFramer [(encodeFrame p1 ++ encodeFrame p2).take k,
                           (encodeFrame p1 ++ encodeFrame p2).drop k] =
      some (initialFramer, ([p1, p2], false)) := by
  apply feedAll_join _ _ _ _ framerInv_initial
  have hjoin : [(encodeFrame p1 ++ encodeFrame p2).take k,
      (encodeFrame p1 ++ encodeFrame p2).drop k].flatten =
      encodeFrame p1 ++ encodeFrame p2 := by
    simp [List.take_append_drop]
  rw [hjoin, specRun_frame p1 (encodeFrame p2) h11 h12]
  have h2f := specRun_frame p2 [] h21 h22
  rw [List.append_nil] at h2f
  rw [h2f]
  simp [specRun]

theorem boundary_straddling_witness :
    0 < ([1] : List Nat).length ∧ ([1] : List Nat).length ≤ MAX_MESSAGE_LENGTH ∧
    0 < ([2, 3] : List Nat).length ∧ ([2, 3] : List Nat).length ≤ MAX_MESSAGE_LENGTH ∧
    feedAll initialFramer [(encodeFrame [1] ++ encodeFrame [2, 3]).take 5,
                           (encodeFrame [1] ++ encodeFrame [2, 3]).drop 5] =
      some (initialFramer, ([[1], [2, 3]], false)) :=
  ⟨by decide, by decide, by decide, by decide,
   boundary_straddling [1] [2, 3] 5 (by decide) (by decide) (by decide) (by decide)⟩

/-- Claim C4.  Invalid-length rejection: a 4-byte prefix whose signed
big-endian decode is zero or negative (`≤ 0`) or exceeds
`10 * 1024 * 1024` makes the framer raise the framing error, emit no
payload, and discard all buffered state (length accumulator, payload
accumulator and expected length all reset), regardless of any further bytes
in the chunk. -/
theorem invalid_length_rejection (b0 b1 b2 b3 : Nat) (rest : List Nat)
    (hbad : readInt32BE [b0, b1, b2, b3] ≤ 0 ∨
            (MAX_MESSAGE_LENGTH : Int) < readInt32BE [b0, b1, b2, b3]) :
    processData initialFramer (b0 :: b1 :: b2 :: b3 :: rest) =
      some (initialFramer, ([], true)) := by
  rw [processData_eq_specRun _ _ framerInv_initial]
  have hsplit : b0 :: b1 :: b2 :: b3 :: rest = [b0, b1, b2, b3] ++ rest := rfl
  rw [hsplit]
  conv_lhs => rw [show initialFramer = (⟨[], [], none⟩ : Framer) from rfl]
  rw [specRun_complete_length [b0, b1, b2, b3] [] [] rest (by simp) (by simp)]
  rw [if_pos (by simpa using hbad)]

theorem invalid_length_rejection_witness :
    (readInt32BE [0, 160, 0, 1] ≤ 0 ∨
      (MAX_MESSAGE_LENGTH : Int) < readInt32BE [0, 160, 0, 1]) ∧
    processData initialFramer [0, 160, 0, 1, 7, 7] =
      some (initialFramer, ([], true)) :=
  ⟨by decide, invalid_length_rejection 0 160 0 1 [7, 7] (by decide)⟩

/-- Claim C9.  Two-stage accumulator invariant: it holds initially, it is
preserved by every `processData` call, and a chunk ending exactly at a
frame boundary leaves the framer fully reset (both accumulators empty and
no expected length). -/
theorem two_stage_accumulator :
    FramerInv initialFramer ∧
    (∀ (st : Framer) (data : List Nat) (r : Framer × List (List Nat) × Bool),
      FramerInv st → processData st data = some r → FramerInv r.1) ∧
    (∀ (p : List Nat), 0 < p.length → p.length ≤ MAX_MESSAGE_LENGTH →
      processData initialFramer (encodeFrame p) = some (initialFramer, ([p], false))) := by
  refine ⟨framerInv_initial, fun st data r hinv h => processData_inv hinv h, fun p h1 h2 => ?_⟩
  rw [processData_eq_specRun _ _ framerInv_initial]
  have hframe := specRun_frame p [] h1 h2
  rw [List.append_nil] at hframe
  rw [hframe]
  simp [specRun]

theorem two_stage_accumulator_witness :
    FramerInv initialFramer ∧
    FramerInv (Framer.mk [] [65] (some 5)) ∧
    processData initialFramer [0, 0, 0, 5, 65] =
      some (Framer.mk [] [65] (some 5), ([], false)) :=
  ⟨two_stage_accumulator.1,
   two_stage_accumulator.2.1 initialFramer [0, 0, 0, 5, 65]
     (Framer.mk [] [65] (some 5), ([], false)) (by decide) (by decide),
   by decide⟩

/-- A delivery whose computed request id matches no registered key settles
nothing and leaves the registry unchanged. -/
theorem handleResponse_miss {parse : String → Option JValue} {cbs : Registry}
    {p : String} {response rid : JValue}
    (hp : parse p = some response) (hid : requestIdOf response = some rid)
    (hmiss : ∀ k, rid = JValue.str k → cbs.contains k = false) :
    handleResponse parse cbs p = (cbs, []) := by
  simp only [handleResponse, hp, hid]
  cases rid with
  | str k =>
    have hkc := hmiss k rfl
    have hnm : k ∉ cbs := fun hm => by
      have hct : cbs.contains k = true := List.elem_iff.mpr hm
      rw [hkc] at hct
      exact Bool.noConfusion hct
    simp [hnm]
  | null => rfl
  | bool b => rfl
  | num n => rfl
  | arr xs => rfl
  | obj fields => rfl

/-- A delivery whose computed request id matches a registered key settles
that request with the callback's outcome and deletes the registration. -/
theorem handleResponse_hit {parse : String → Option JValue} {cbs : Registry}
    {p : String} {response : JValue} {X : String}
    (hp : parse p = some response) (hid : requestIdOf response = some (.str X))
    (hc : cbs.contains X = true) :
    handleResponse parse cbs p = (cbs.erase X, [(X, callbackOutcome parse p)]) := by
  simp only [handleResponse, hp, hid]
  simp [hc]
  exact List.elem_iff.mp hc

theorem natToDecimalCore_digits (fuel : Nat) : ∀ (n : Nat) (c : Char),
    c ∈ natToDecimalCore fuel n → ∃ d, d < 10 ∧ c = digitChar d := by
  induction fuel with
  | zero => intro n c h; simp [natToDecimalCore] at h
  | succ fuel ih =>
    intro n c h
    cases n with
    | zero => simp [natToDecimalCore] at h
    | succ n =>
      simp only [natToDecimalCore, List.mem_append, List.mem_singleton] at h
      rcases h with h | h
      · exact ih _ _ h
      · exact ⟨(n + 1) % 10, Nat.mod_lt _ (by omega), h⟩

theorem natToDecimalCore_ne_nil {fuel n : Nat} (hn : 0 < n) (hf : 0 < fuel) :
    natToDecimalCore fuel n ≠ [] := by
  cases fuel with
  | zero => omega
  | succ fuel =>
    cases n with
    | zero => omega
    | succ n => simp [natToDecimalCore]

/-- The decimal rendering of `Date.now()` is a nonempty string of digit
characters. -/
theorem natToDecimal_digits (n : Nat) :
    (natToDecimal n).data ≠ [] ∧
    ∀ c ∈ (natToDecimal n).data, ∃ d, d < 10 ∧ c = digitChar d := by
  unfold natToDecimal
  by_cases h : n = 0
  · subst h
    rw [if_pos rfl]
    refine ⟨by decide, fun c hc => ⟨0, by omega, ?_⟩⟩
    have : c = '0' := by
      have h0 : ("0" : String).data = ['0'] := rfl
      rw [h0] at hc
      simpa using hc
    rw [this]
    rfl
  · rw [if_neg h]
    exact ⟨by simpa using natToDecimalCore_ne_nil (by omega) (by omega),
           fun c hc => natToDecimalCore_digits n n c (by simpa using hc)⟩

theorem digitChar_ne_d {d : Nat} (h : d < 10) : digitChar d ≠ 'd' := by
  interval_cases d <;> decide

theorem string_data_append (a b : String) : (a ++ b).data = a.data ++ b.data := rfl

/-- The request ids produced by `generateRequestId` start with a decimal
digit, so none of them is the string `"default"`. -/
theorem generateRequestId_ne_default (now : Nat) (randomRepr : String) :
    generateRequestId now randomRepr ≠ "default" := by
  intro h
  rw [generateRequestId] at h
  have hdata : (natToDecimal now).data ++ ((randomRepr.drop 2).take 6).data =
      ("default" : String).data := by
    rw [← string_data_append]
    exact congrArg String.data h
  obtain ⟨hne, hdig⟩ := natToDecimal_digits now
  cases hd : (natToDecimal now).data with
  | nil => exact hne hd
  | cons c cs =>
    rw [hd] at hdata
    have hdef : ("default" : String).data = ['d', 'e', 'f', 'a', 'u', 'l', 't'] := rfl
    rw [hdef] at hdata
    have hc : c = 'd' := by
      have := congrArg (fun l => l.head?) hdata
      simpa using this
    obtain ⟨d, hd10, hcd⟩ := hdig c (by rw [hd]; exact List.mem_cons_self _ _)
    rw [hc] at hcd
    exact digitChar_ne_d hd10 hcd.symm

/-- Claim C3.  Correlation at-most-once: with identifier `X` registered
(once — JS `Map` keys are unique), performing a delivery for `X` and the
timeout expiry for `X` in either order settles `X`'s promise exactly once;
whichever runs first removes the registration and the later operation is a
no-op (registry unchanged, nothing settled), and `X` is no longer
registered afterwards. -/
theorem correlation_at_most_once (parse : String → Option JValue) (cbs : Registry)
    (p X meth : String) (response : JValue)
    (hnodup : cbs.Nodup) (hreg : X ∈ cbs)
    (hp : parse p = some response) (hid : requestIdOf response = some (.str X)) :
    (((handleResponse parse cbs p).2 ++
        (expire (handleResponse parse cbs p).1 X meth).2).countP (fun s => s.1 == X) = 1 ∧
      expire (handleResponse parse cbs p).1 X meth = ((handleResponse parse cbs p).1, []) ∧
      X ∉ (expire (handleResponse parse cbs p).1 X meth).1) ∧
    (((expire cbs X meth).2 ++
        (handleResponse parse (expire cbs X meth).1 p).2).countP (fun s => s.1 == X) = 1 ∧
      handleResponse parse (expire cbs X meth).1 p = ((expire cbs X meth).1, []) ∧
      X ∉ (handleResponse parse (expire cbs X meth).1 p).1) := by
  have hc : cbs.contains X = true := List.elem_iff.mpr hreg
  have hhr := handleResponse_hit hp hid hc
  have hnm : X ∉ cbs.erase X := hnodup.not_mem_erase
  have hncb : (cbs.erase X).contains X = false := by
    cases hcc : (cbs.erase X).contains X
    · rfl
    · exact absurd (List.elem_iff.mp hcc) hnm
  have hexp2 : expire (cbs.erase X) X meth = (cbs.erase X, []) := by
    unfold expire
    rw [hncb]
    simp
  have hexp1 : expire cbs X meth = (cbs.erase X, [(X, .rejectedTimeout meth)]) := by
    unfold expire
    rw [hc]
    simp
  have hhr2 : handleResponse parse (cbs.erase X) p = (cbs.erase X, []) :=
    handleResponse_miss hp hid (fun k hk => by cases hk; exact hncb)
  constructor
  · rw [hhr]
    simp only [hexp2]
    refine ⟨?_, trivial, hnm⟩
    simp
  · rw [hexp1]
    simp only [hhr2]
    refine ⟨?_, trivial, hnm⟩
    simp

theorem correlation_at_most_once_witness :
    ((["42"] : Registry).Nodup ∧ "42" ∈ (["42"] : Registry)) ∧
    (((handleResponse (fun _ => some (.obj [("id", .str "42")])) ["42"] "x").2 ++
        (expire (handleResponse (fun _ => some (.obj [("id", .str "42")])) ["42"] "x").1
          "42" "ping").2).countP (fun s => s.1 == "42") = 1 ∧
      ((expire (["42"] : Registry) "42" "ping").2 ++
        (handleResponse (fun _ => some (.obj [("id", .str "42")]))
          (expire (["42"] : Registry) "42" "ping").1 "x").2).countP
            (fun s => s.1 == "42") = 1) :=
  ⟨⟨by decide, by decide⟩,
   (correlation_at_most_once (fun _ => some (.obj [("id", .str "42")])) ["42"] "x" "42"
      "ping" (.obj [("id", .str "42")]) (by decide) (by decide) rfl rfl).1.1,
   (correlation_at_most_once (fun _ => some (.obj [("id", .str "42")])) ["42"] "x" "42"
      "ping" (.obj [("id", .str "42")]) (by decide) (by decide) rfl rfl).2.1⟩

/-- Counterexample to claim C5 as stated: the spec's per-call timeout
parameter would give a call requesting 50 ms a 50 ms window, but the source
`sendCommand(command, params)` takes no timeout argument and passes the
fixed literal 120000 to `setTimeout` for every call. -/
theorem per_call_timeout_counterexample :
    specTimeoutWindow (some 50) ≠ sendCommandTimeoutMs := by decide

/-- Claim C5 as amended: `sendCommand`'s timeout window is the fixed value
120000 ms (not configurable per call); when the timeout fires for a
still-registered identifier, the registration is removed and the caller's
promise is rejected with the timeout error carrying the method name, and a
delivery for that identifier afterwards settles nothing and changes
nothing. -/
theorem fixed_timeout_behavior :
    sendCommandTimeoutMs = 120000 ∧
    ∀ (cbs : Registry) (X meth : String), cbs.Nodup → X ∈ cbs →
      expire cbs X meth = (cbs.erase X, [(X, .rejectedTimeout meth)]) ∧
      X ∉ cbs.erase X ∧
      (∀ (parse : String → Option JValue) (p : String) (response : JValue),
        parse p = some response → requestIdOf response = some (.str X) →
        handleResponse parse (cbs.erase X) p = (cbs.erase X, [])) := by
  refine ⟨rfl, fun cbs X meth hnodup hreg => ?_⟩
  have hc : cbs.contains X = true := List.elem_iff.mpr hreg
  have hnm : X ∉ cbs.erase X := hnodup.not_mem_erase
  have hncb : (cbs.erase X).contains X = false := by
    cases hcc : (cbs.erase X).contains X
    · rfl
    · exact absurd (List.elem_iff.mp hcc) hnm
  refine ⟨?_, hnm, fun parse p response hp hid => ?_⟩
  · unfold expire
    rw [hc]
    simp
  · exact handleResponse_miss hp hid (fun k hk => by cases hk; exact hncb)

theorem fixed_timeout_behavior_witness :
    sendCommandTimeoutMs = 120000 ∧
    expire ["7"] "7" "ping" = ((["7"] : Registry).erase "7",
      [("7", Outcome.rejectedTimeout "ping")]) :=
  ⟨fixed_timeout_behavior.1,
   (fixed_timeout_behavior.2 ["7"] "7" "ping" (by decide) (by decide)).1⟩

/-- Claim C6.  Malformed matched payload: when the payload handed to the
response callback registered by `sendCommand` fails to parse, the caller's
promise is rejected with the parse-failure (`Failed to parse response`)
error — it is settled, not left pending until the timeout. -/
theorem malformed_payload_rejection (parse : String → Option JValue) (responseData : String)
    (h : parse responseData = none) :
    callbackOutcome parse responseData = .rejectedParse := by
  unfold callbackOutcome
  rw [h]

theorem malformed_payload_rejection_witness :
    callbackOutcome (fun _ => none) "not json" = .rejectedParse :=
  malformed_payload_rejection (fun _ => none) "not json" rfl

/-- Claim C7.  Result/error propagation: when the matched payload parses to
an envelope carrying an `error` object, the caller's promise is rejected
with that error's (nonempty string) message; when the envelope carries no
`error` field, the promise resolves with the envelope's `result` field. -/
theorem error_propagation (parse : String → Option JValue) (p : String)
    (response : JValue) (hp : parse p = some response) :
    (∀ (efs : List (String × JValue)) (m : String),
      getProp response "error" = .ok (some (.obj efs)) →
      getProp (.obj efs) "message" = .ok (some (.str m)) → m ≠ "" →
      callbackOutcome parse p = .rejectedError (.str m)) ∧
    (getProp response "error" = .ok none →
      callbackOutcome parse p = .resolved (resultOf response)) := by
  constructor
  · intro efs m herr hmsg hm
    have htm : truthy (JValue.str m) = true := by simp [truthy, hm]
    simp [callbackOutcome, hp, herr, errorMessageOf, hmsg, htm, truthy]
    exact fun hcontra => absurd hcontra hm
  · intro hnone
    simp [callbackOutcome, hp, hnone]

theorem error_propagation_witness :
    callbackOutcome
      (fun _ => some (.obj [("id", .str "7"), ("error", .obj [("message", .str "boom")])]))
      "y" = .rejectedError (.str "boom") :=
  (error_propagation
    (fun _ => some (.obj [("id", .str "7"), ("error", .obj [("message", .str "boom")])]))
    "y" (.obj [("id", .str "7"), ("error", .obj [("message", .str "boom")])]) rfl).1
    [("message", .str "boom")] "boom" rfl rfl (by decide)

/-- Claim C8.  Unknown-id drop: delivering a parsed payload whose computed
identifier matches no registered callback settles nothing and leaves the
registry (and, `handleResponse` not touching them, all other state)
unchanged; no error escapes. -/
theorem unknown_id_drop (parse : String → Option JValue) (cbs : Registry) (p : String)
    (response rid : JValue)
    (hp : parse p = some response) (hid : requestIdOf response = some rid)
    (hmiss : ∀ k, rid = JValue.str k → cbs.contains k = false) :
    handleResponse parse cbs p = (cbs, []) :=
  handleResponse_miss hp hid hmiss

theorem unknown_id_drop_witness :
    handleResponse (fun _ => some (.obj [("id", .str "9")])) ["1"] "z" = (["1"], []) :=
  unknown_id_drop (fun _ => some (.obj [("id", .str "9")])) ["1"] "z"
    (.obj [("id", .str "9")]) (.str "9") rfl rfl
    (fun k hk => by cases hk; decide)

/-- Claim C10.  Missing-id fallback: a payload parsing to a value whose
`id` access yields `undefined` or a falsy value makes `handleResponse` look
the registry up under the literal key `"default"`; since every identifier
`sendCommand` registers is a decimal timestamp rendering followed by
random-digit characters (never `"default"`), such a payload settles no
pending request and is dropped with the registry unchanged. -/
theorem missing_id_default (parse : String → Option JValue) (cbs : Registry)
    (p : String) (response : JValue) (idv : Option JValue)
    (hp : parse p = some response)
    (hacc : getProp response "id" = .ok idv)
    (hfalsy : ∀ v, idv = some v → truthy v = false) :
    requestIdOf response = some (.str "default") ∧
    ((∀ k ∈ cbs, ∃ now randomRepr, k = generateRequestId now randomRepr) →
      handleResponse parse cbs p = (cbs, [])) := by
  have hrid : requestIdOf response = some (.str "default") := by
    cases idv with
    | none => simp [requestIdOf, hacc]
    | some v => simp [requestIdOf, hacc, hfalsy v rfl]
  refine ⟨hrid, fun hkeys => ?_⟩
  refine handleResponse_miss hp hrid (fun k hk => ?_)
  cases hk
  cases hcc : cbs.contains "default"
  · rfl
  · obtain ⟨now, randomRepr, hgen⟩ := hkeys "default" (List.elem_iff.mp hcc)
    exact absurd hgen.symm (generateRequestId_ne_default now randomRepr)

theorem missing_id_default_witness :
    requestIdOf (.obj [("ok", .num 1)]) = some (.str "default") ∧
    handleResponse (fun _ => some (.obj [("ok", .num 1)])) ["1712345"] "w" =
      (["1712345"], []) :=
  ⟨(missing_id_default (fun _ => some (.obj [("ok", .num 1)])) ["1712345"] "w"
      (.obj [("ok", .num 1)]) none rfl rfl (fun v hv => by cases hv)).1,
   (missing_id_default (fun _ => some (.obj [("ok", .num 1)])) ["1712345"] "w"
      (.obj [("ok", .num 1)]) none rfl rfl (fun v hv => by cases hv)).2
     (fun k hk => by
        have hk1 : k = "1712345" := by simpa using hk
        exact ⟨1712345, "", by rw [hk1]; decide⟩)⟩
